import Mathlib

/-!
Verification of the cnxt terminal-styling library (color-capability
resolution and escape-sequence rendering engine).

The Rust source is shallowly embedded: strings are `List Char`, the `u8`
machine integers are `Nat` (their `< 256` range is carried as explicit
hypotheses where it matters), global capability state is passed as an
explicit `ColorLevel` argument, and fallible code returns `Option`.
-/

set_option maxRecDepth 4000

/-- Modelled from the spec: the process-wide Capability value
(`{Disabled, Ansi16, Ansi256, TrueColor}`, §3 of the spec). The source
file `control.rs` defining `ColorLevel` is not in the provided sources;
`color.rs` and `lib.rs` match on `ColorLevel::None`, `Ansi16`, `Ansi256`
and a wildcard arm, so the enum has these four variants. -/
inductive ColorLevel where
  | none
  | ansi16
  | ansi256
  | truecolor
deriving DecidableEq

/-- The `Color` enum of `color.rs`: the 16 standard colors, `Ansi256` and
`TrueColor`. The `u8` fields become `Nat`. -/
inductive Color where
  | black
  | red
  | green
  | yellow
  | blue
  | magenta
  | cyan
  | white
  | brightBlack
  | brightRed
  | brightGreen
  | brightYellow
  | brightBlue
  | brightMagenta
  | brightCyan
  | brightWhite
  | ansi256 (idx : Nat)
  | trueColor (r g b : Nat)
deriving DecidableEq

/-- The `ANSI_16_COLORS` table of `color.rs`: `(r, g, b, color)` entries. -/
def ANSI_16_COLORS : List (Nat × Nat × Nat × Color) :=
  [ (0, 0, 0, Color.black),
    (128, 0, 0, Color.red),
    (0, 128, 0, Color.green),
    (128, 128, 0, Color.yellow),
    (0, 0, 128, Color.blue),
    (128, 0, 128, Color.magenta),
    (0, 128, 128, Color.cyan),
    (192, 192, 192, Color.white),
    (128, 128, 128, Color.brightBlack),
    (255, 0, 0, Color.brightRed),
    (0, 255, 0, Color.brightGreen),
    (255, 255, 0, Color.brightYellow),
    (0, 0, 255, Color.brightBlue),
    (255, 0, 255, Color.brightMagenta),
    (0, 255, 255, Color.brightCyan),
    (255, 255, 255, Color.brightWhite) ]

/-- The `CUBE_VALUES` table of `color.rs`: `[0, 0x5f, 0x87, 0xaf, 0xd7, 0xff]`. -/
def CUBE_VALUES : List Nat := [0, 95, 135, 175, 215, 255]

/-- `ansi256_to_rgb` of `color.rs`. Array indexing `ANSI_16_COLORS[idx]` /
`CUBE_VALUES[i]` is in bounds in every reachable branch, so it is embedded
with `List.getD`. -/
def ansi256_to_rgb (idx : Nat) : Nat × Nat × Nat :=
  if idx < 16 then
    let e := ANSI_16_COLORS.getD idx (0, 0, 0, Color.black)
    (e.1, e.2.1, e.2.2.1)
  else if idx ≤ 231 then
    let i := idx - 16
    let r := i / 36
    let rem := i % 36
    let g := rem / 6
    let b := rem % 6
    (CUBE_VALUES.getD r 0, CUBE_VALUES.getD g 0, CUBE_VALUES.getD b 0)
  else
    let grayLevel := idx - 232
    let grayValue := 8 + grayLevel * 10
    (grayValue, grayValue, grayValue)

/-- The squared RGB distance computed inside the loops of
`fallback_to_ansi16` / `fallback_to_ansi256`:
`(r-cr)^2 + (g-cg)^2 + (b-cb)^2` over `i32`, summed as `u32`
(no overflow occurs for `u8` components). -/
def distSq (r g b cr cg cb : Nat) : Nat :=
  ((r : Int) - (cr : Int)).natAbs ^ 2 + ((g : Int) - (cg : Int)).natAbs ^ 2
    + ((b : Int) - (cb : Int)).natAbs ^ 2

/-- `u32::MAX`, the initial `min_distance_sq` of the nearest-color loops. -/
def u32Max : Nat := 4294967295

/-- The loop of `fallback_to_ansi16`: scan the table left to right and
keep the entry whose distance is strictly smaller than the best so far
(so ties keep the earlier entry). The accumulator is
`(min_distance_sq, closest_color)`. -/
def pickClosest (p : Nat × Nat × Nat) :
    List (Nat × Nat × Nat × Color) → Nat × Color → Nat × Color
  | [], acc => acc
  | e :: rest, acc =>
    let d := distSq p.1 p.2.1 p.2.2 e.1 e.2.1 e.2.2.1
    if d < acc.1 then pickClosest p rest (d, e.2.2.2) else pickClosest p rest acc

/-- The RGB expansion performed by the opening `match` of
`fallback_to_ansi16`: `Ansi256` goes through `ansi256_to_rgb`,
`TrueColor` is its own components, the 16 named colors take the early
`return self` (here `none`). -/
def Color.rgbExpand : Color → Option (Nat × Nat × Nat)
  | .ansi256 idx => some (ansi256_to_rgb idx)
  | .trueColor r g b => some (r, g, b)
  | _ => none

/-- `Color::fallback_to_ansi16` of `color.rs`. -/
def Color.fallback_to_ansi16 (c : Color) : Color :=
  match c.rgbExpand with
  | Option.none => c
  | some p => (pickClosest p ANSI_16_COLORS (u32Max, c)).2

/-- The loop of `fallback_to_ansi256`: scan indices `0..=255`, keep the
index of strictly smaller distance; accumulator is
`(min_distance_sq, closest_idx)` starting at `(u32::MAX, 0)`. -/
def pickClosestIdx (p : Nat × Nat × Nat) : List Nat → Nat × Nat → Nat × Nat
  | [], acc => acc
  | i :: rest, acc =>
    let q := ansi256_to_rgb i
    let d := distSq p.1 p.2.1 p.2.2 q.1 q.2.1 q.2.2
    if d < acc.1 then pickClosestIdx p rest (d, i) else pickClosestIdx p rest acc

/-- `Color::fallback_to_ansi256` of `color.rs`. -/
def Color.fallback_to_ansi256 (c : Color) : Color :=
  match c with
  | .trueColor r g b =>
    Color.ansi256 (pickClosestIdx (r, g, b) (List.range 256) (u32Max, 0)).2
  | _ => c

/-- Decimal rendering of a `u8` as produced by Rust's `format!(\"{idx}\")`. -/
def natDecimal (n : Nat) : List Char := Nat.toDigits 10 n

/-- The level-independent arms of `Color::to_fg_str`: the fixed codes of
the 16 named colors, `38;5;<idx>` for `Ansi256`, `38;2;r;g;b` for
`TrueColor`. -/
def Color.fgStrBasic : Color → List Char
  | .black => "30".toList
  | .red => "31".toList
  | .green => "32".toList
  | .yellow => "33".toList
  | .blue => "34".toList
  | .magenta => "35".toList
  | .cyan => "36".toList
  | .white => "37".toList
  | .brightBlack => "90".toList
  | .brightRed => "91".toList
  | .brightGreen => "92".toList
  | .brightYellow => "93".toList
  | .brightBlue => "94".toList
  | .brightMagenta => "95".toList
  | .brightCyan => "96".toList
  | .brightWhite => "97".toList
  | .ansi256 idx => "38;5;".toList ++ natDecimal idx
  | .trueColor r g b =>
    "38;2;".toList ++ natDecimal r ++ ";".toList ++ natDecimal g
      ++ ";".toList ++ natDecimal b

/-- The level-independent arms of `Color::to_bg_str`. -/
def Color.bgStrBasic : Color → List Char
  | .black => "40".toList
  | .red => "41".toList
  | .green => "42".toList
  | .yellow => "43".toList
  | .blue => "44".toList
  | .magenta => "45".toList
  | .cyan => "46".toList
  | .white => "47".toList
  | .brightBlack => "100".toList
  | .brightRed => "101".toList
  | .brightGreen => "102".toList
  | .brightYellow => "103".toList
  | .brightBlue => "104".toList
  | .brightMagenta => "105".toList
  | .brightCyan => "106".toList
  | .brightWhite => "107".toList
  | .ansi256 idx => "48;5;".toList ++ natDecimal idx
  | .trueColor r g b =>
    "48;2;".toList ++ natDecimal r ++ ";".toList ++ natDecimal g
      ++ ";".toList ++ natDecimal b

/-- `Color::to_fg_str` of `color.rs`, with the global
`get_current_color_level()` passed explicitly. In the source the
`TrueColor` arm recursively calls `to_fg_str` on the fallback result;
that result is a named color (for `fallback_to_ansi16`) or an `Ansi256`
(for `fallback_to_ansi256`), whose rendering is `fgStrBasic` in either
case, so the recursion is unfolded here. Note the `Ansi256` arm does NOT
consult the level in the source. -/
def Color.to_fg_str (c : Color) (lvl : ColorLevel) : List Char :=
  match c with
  | .trueColor _ _ _ =>
    match lvl with
    | .ansi16 => c.fallback_to_ansi16.fgStrBasic
    | .ansi256 => c.fallback_to_ansi256.fgStrBasic
    | _ => c.fgStrBasic
  | _ => c.fgStrBasic

/-- `Color::to_bg_str` of `color.rs` (the `Ansi256` arm, unlike
`to_fg_str`, matches on the level and falls back at `Ansi16`). -/
def Color.to_bg_str (c : Color) (lvl : ColorLevel) : List Char :=
  match c with
  | .ansi256 _ =>
    match lvl with
    | .ansi16 => c.fallback_to_ansi16.bgStrBasic
    | _ => c.bgStrBasic
  | .trueColor _ _ _ =>
    match lvl with
    | .ansi16 => c.fallback_to_ansi16.bgStrBasic
    | .ansi256 => c.fallback_to_ansi256.bgStrBasic
    | _ => c.bgStrBasic
  | _ => c.bgStrBasic

/-- The `Styles` enum of `style.rs`. -/
inductive Styles where
  | clear
  | bold
  | dimmed
  | underline
  | reversed
  | italic
  | blink
  | hidden
  | strikethrough
deriving DecidableEq

/-- `Styles::to_u8` of `style.rs`, using the bit constants
`CLEARV = 0`, `BOLD = 1`, `UNDERLINE = 2`, `REVERSED = 4`, `ITALIC = 8`,
`BLINK = 16`, `HIDDEN = 32`, `DIMMED = 64`, `STRIKETHROUGH = 128`. -/
def Styles.to_u8 : Styles → Nat
  | .clear => 0
  | .bold => 1
  | .dimmed => 64
  | .italic => 8
  | .underline => 2
  | .blink => 16
  | .reversed => 4
  | .hidden => 32
  | .strikethrough => 128

/-- `Styles::to_str` of `style.rs`: the SGR code of each attribute. -/
def Styles.to_str : Styles → List Char
  | .clear => "".toList
  | .bold => "1".toList
  | .dimmed => "2".toList
  | .italic => "3".toList
  | .underline => "4".toList
  | .blink => "5".toList
  | .reversed => "7".toList
  | .hidden => "8".toList
  | .strikethrough => "9".toList

/-- The `STYLES` table of `style.rs`, in source order. -/
def STYLES : List (Nat × Styles) :=
  [ (1, Styles.bold),
    (64, Styles.dimmed),
    (2, Styles.underline),
    (4, Styles.reversed),
    (8, Styles.italic),
    (16, Styles.blink),
    (32, Styles.hidden),
    (128, Styles.strikethrough) ]

/-- The `Style(u8)` newtype of `style.rs`; the wrapped byte is a `Nat`. -/
structure Style where
  val : Nat
deriving DecidableEq

/-- The `CLEAR` constant of `style.rs`: `Style(CLEARV)`. -/
def CLEAR : Style := ⟨0⟩

/-- `Style::contains` of `style.rs`: `self.0 & s == s`. -/
def Style.contains (s : Style) (style : Styles) : Bool :=
  s.val &&& style.to_u8 == style.to_u8

/-- `Styles::from_u8` of `style.rs`: `None` for the clear byte, otherwise
the `STYLES` entries whose mask intersects `u`, `None` if that list is
empty. -/
def Styles.from_u8 (u : Nat) : Option (List Styles) :=
  if u = 0 then Option.none
  else
    let res := (STYLES.filter (fun e => 0 ≠ u &&& e.1)).map (fun e => e.2)
    if res.isEmpty then Option.none else some res

/-- Separator-joined concatenation, as Rust's `Vec::join`: empty for an
empty list, no leading or trailing separator. -/
def joinSep (sep : List Char) : List (List Char) → List Char
  | [] => []
  | [x] => x
  | x :: y :: rest => x ++ sep ++ joinSep sep (y :: rest)

/-- `Style::to_str` of `style.rs`: `from_u8` (defaulting to the empty
list), each attribute's code, joined with `;`. -/
def Style.to_str (s : Style) : List Char :=
  let styles := (Styles.from_u8 s.val).getD []
  joinSep ";".toList (styles.map Styles.to_str)

/-- The `ColoredString` struct of `lib.rs`; the copy-on-write `input`
buffer is a plain `List Char`. -/
structure ColoredString where
  input : List Char
  fgcolor : Option Color
  bgcolor : Option Color
  style : Style
deriving DecidableEq

/-- `ColoredString::is_plain` of `lib.rs`. -/
def ColoredString.is_plain (cs : ColoredString) : Bool :=
  cs.bgcolor.isNone && cs.fgcolor.isNone && (cs.style == CLEAR)

/-- `ColoredString::has_colors` of `lib.rs`:
`get_current_color_level() != ColorLevel::None`, with the global level
passed explicitly. -/
def hasColors (lvl : ColorLevel) : Bool :=
  lvl != ColorLevel.none

/-- `ColoredString::compute_style` of `lib.rs`: the `ESC[<params>m`
preamble, built with the `has_wrote` flag exactly as in the source. -/
def ColoredString.compute_style (cs : ColoredString) (lvl : ColorLevel) : List Char :=
  if ¬ hasColors lvl ∨ cs.is_plain then []
  else
    let res0 := "\x1B[".toList
    let step1 : List Char × Bool :=
      if cs.style = CLEAR then (res0, false)
      else (res0 ++ cs.style.to_str, true)
    let step2 : List Char × Bool :=
      match cs.bgcolor with
      | some bg =>
        (step1.1 ++ (if step1.2 then ";".toList else []) ++ bg.to_bg_str lvl, true)
      | Option.none => step1
    let step3 : List Char :=
      match cs.fgcolor with
      | some fg =>
        step2.1 ++ (if step2.2 then ";".toList else []) ++ fg.to_fg_str lvl
      | Option.none => step2.1
    step3 ++ "m".toList

/-- The literal reset sequence `"\x1B[0m"`. -/
def RESET : List Char := "\x1B[0m".toList

/-- A prefix test: the pattern starts the string (Rust slice prefix
comparison, used to embed the substring scans below). -/
def leadsWith : List Char → List Char → Bool
  | [], _ => true
  | _ :: _, [] => false
  | p :: ps, c :: cs => p == c && leadsWith ps cs

/-- `str::contains(pat)` for a literal pattern: some position of `s`
starts with `pat`. -/
def occursIn (pat : List Char) : List Char → Bool
  | [] => leadsWith pat []
  | c :: rest => leadsWith pat (c :: rest) || occursIn pat rest

/-- The `match_indices` + slicing loop of
`ColoredString::escape_inner_reset_sequences`: at each leftmost,
non-overlapping occurrence of `RESET` emit the reset followed by the
computed style, otherwise copy the character; `RESET` has length 4, so
after a match the scan resumes at `rest.drop 3`. -/
def insertAfterResets (style : List Char) : List Char → List Char
  | [] => []
  | c :: rest =>
    if leadsWith RESET (c :: rest) then
      RESET ++ style ++ insertAfterResets style (rest.drop 3)
    else
      c :: insertAfterResets style rest
termination_by s => s.length
decreasing_by
  · simp only [List.length_drop, List.length_cons]
    omega
  · simp only [List.length_cons]
    omega

/-- `ColoredString::escape_inner_reset_sequences` of `lib.rs`. -/
def ColoredString.escape_inner_reset_sequences (cs : ColoredString)
    (lvl : ColorLevel) : List Char :=
  if ¬ hasColors lvl ∨ cs.is_plain then cs.input
  else if ¬ occursIn RESET cs.input then cs.input
  else insertAfterResets (cs.compute_style lvl) cs.input

/-- The `Display` implementation for `ColoredString` in `lib.rs`: the
string written to the formatter. -/
def ColoredString.render (cs : ColoredString) (lvl : ColorLevel) : List Char :=
  if ¬ hasColors lvl ∨ cs.is_plain then cs.input
  else cs.compute_style lvl ++ cs.escape_inner_reset_sequences lvl ++ RESET

/-- The enumeration order of the spec for serializing style flags
(the order of the `STYLES` table). -/
def styleEnumOrder : List Styles :=
  [Styles.bold, Styles.dimmed, Styles.underline, Styles.reversed,
   Styles.italic, Styles.blink, Styles.hidden, Styles.strikethrough]

/-- The fixed SGR codes stated by the spec: Bold=1, Dimmed=2, Italic=3,
Underline=4, Blink=5, Reversed=7, Hidden=8, Strikethrough=9. -/
def specSgrCode : Styles → List Char
  | .clear => "".toList
  | .bold => "1".toList
  | .dimmed => "2".toList
  | .italic => "3".toList
  | .underline => "4".toList
  | .blink => "5".toList
  | .reversed => "7".toList
  | .hidden => "8".toList
  | .strikethrough => "9".toList

/-- Serialization as the spec words it: the codes of every set attribute,
in the fixed enumeration order, joined with `;`. -/
def specSerializeCodes (s : Style) : List Char :=
  joinSep ";".toList ((styleEnumOrder.filter (fun st => s.contains st)).map specSgrCode)

/-- Spec-side description of the rewrite: split the text at the leftmost,
non-overlapping literal occurrences of `RESET`, keeping the text before,
between and after the occurrences unchanged. -/
def splitOnReset : List Char → List (List Char)
  | [] => [[]]
  | c :: rest =>
    if leadsWith RESET (c :: rest) then [] :: splitOnReset (rest.drop 3)
    else
      match splitOnReset rest with
      | [] => [[c]]
      | h :: t => (c :: h) :: t
termination_by s => s.length
decreasing_by
  · simp only [List.length_drop, List.length_cons]
    omega
  · simp only [List.length_cons]
    omega

/-- The parameter list of the preamble as the spec words it: the style
codes when the style is non-Clear, then the background code when a
background is set, then the foreground code when a foreground is set. -/
def styleBgFgParts (cs : ColoredString) (lvl : ColorLevel) : List (List Char) :=
  (if cs.style = CLEAR then [] else [cs.style.to_str]) ++
  (match cs.bgcolor with
   | some bg => [bg.to_bg_str lvl]
   | Option.none => []) ++
  (match cs.fgcolor with
   | some fg => [fg.to_fg_str lvl]
   | Option.none => [])

/-- The squared distance from the point `p` to a table entry. -/
def entryDist (p : Nat × Nat × Nat) (e : Nat × Nat × Nat × Color) : Nat :=
  distSq p.1 p.2.1 p.2.2 e.1 e.2.1 e.2.2.1

/-- Rust's `char::to_digit(16)`, written on the character's code point:
`0`-`9`, `a`-`f`, `A`-`F`. -/
def hexVal (c : Char) : Option Nat :=
  if 48 ≤ c.toNat ∧ c.toNat ≤ 57 then some (c.toNat - 48)
  else if 97 ≤ c.toNat ∧ c.toNat ≤ 102 then some (c.toNat - 87)
  else if 65 ≤ c.toNat ∧ c.toNat ≤ 70 then some (c.toNat - 55)
  else Option.none

/-- A hexadecimal digit in the sense of `char::to_digit(16)`. -/
def isHexDigitChar (c : Char) : Bool := (hexVal c).isSome

/-- The digit loop of `u8::from_str_radix` at radix 16: each digit is
folded in with `u8`-checked multiply and add (any intermediate above
255 is an error). -/
def hexAccum : List Char → Nat → Option Nat
  | [], acc => some acc
  | c :: rest, acc =>
    match hexVal c with
    | Option.none => Option.none
    | some d =>
      if 255 < acc * 16 + d then Option.none else hexAccum rest (acc * 16 + d)

/-- `u8::from_str_radix(s, 16)`: the empty string and a lone sign are
errors; a leading `'+'` is skipped (`'-'` is not stripped for unsigned
types, so `'-'` falls through as an invalid digit); then the digits
accumulate. -/
def from_str_radix16 : List Char → Option Nat
  | [] => Option.none
  | c :: rest =>
    if c = '+' then (if rest.isEmpty then Option.none else hexAccum rest 0)
    else hexAccum (c :: rest) 0

/-- The `strip_prefix('#').unwrap_or(s)` step at the head of `parse_hex`. -/
def stripHash : List Char → List Char
  | [] => []
  | c :: rest => if c = '#' then rest else c :: rest

/-- The UTF-8 byte length of a character (Rust `char::len_utf8`). -/
def utf8Len (c : Char) : Nat :=
  if c.toNat < 128 then 1
  else if c.toNat < 2048 then 2
  else if c.toNat < 65536 then 3
  else 4

/-- The UTF-8 byte length of a string (Rust `str::len`, as used by the
`match s.len()` of `parse_hex`). -/
def byteLen (s : List Char) : Nat := (s.map utf8Len).sum

/-- An ASCII character: one UTF-8 byte. -/
def charAscii (c : Char) : Bool := c.toNat < 128

/-- Dropping `n` bytes from a string held as chars: `some` of the
remaining chars when byte index `n` is a character boundary, `none` when
it falls inside a multi-byte character or past the end (the cases where
Rust byte slicing panics). -/
def byteDrop : List Char → Nat → Option (List Char)
  | s, 0 => some s
  | [], _ + 1 => Option.none
  | c :: rest, n + 1 =>
    if utf8Len c ≤ n + 1 then byteDrop rest (n + 1 - utf8Len c) else Option.none

/-- Taking the first `n` bytes of a string held as chars: `some` of the
chars when byte index `n` is a character boundary, `none` otherwise. -/
def byteTake : List Char → Nat → Option (List Char)
  | _, 0 => some []
  | [], _ + 1 => Option.none
  | c :: rest, n + 1 =>
    if utf8Len c ≤ n + 1 then (byteTake rest (n + 1 - utf8Len c)).map (c :: ·)
    else Option.none

/-- The byte slice `&t[a..b]` of `parse_hex` (`a ≤ b`): `none` models the
slicing panic when either end is not a character boundary. -/
def byteSlice (t : List Char) (a b : Nat) : Option (List Char) :=
  match byteDrop t a with
  | Option.none => Option.none
  | some r => byteTake r (b - a)

/-- The body of `parse_hex` after the `#` strip, on the byte level and in
the source's evaluation order: each `&s[i..j]` slice is taken (outer
`none` = slicing panic on a non-boundary), then fed to
`u8::from_str_radix`, whose failure returns early with `some none`
(the `.ok()?` path); `some (some c)` is success. -/
def parse_hex_body (t : List Char) : Option (Option Color) :=
  if byteLen t = 6 then
    match byteSlice t 0 2 with
    | Option.none => Option.none
    | some s1 =>
      match from_str_radix16 s1 with
      | Option.none => some Option.none
      | some r =>
        match byteSlice t 2 4 with
        | Option.none => Option.none
        | some s2 =>
          match from_str_radix16 s2 with
          | Option.none => some Option.none
          | some g =>
            match byteSlice t 4 6 with
            | Option.none => Option.none
            | some s3 =>
              match from_str_radix16 s3 with
              | Option.none => some Option.none
              | some b => some (some (Color.trueColor r g b))
  else if byteLen t = 3 then
    match byteSlice t 0 1 with
    | Option.none => Option.none
    | some s1 =>
      match from_str_radix16 s1 with
      | Option.none => some Option.none
      | some r =>
        match byteSlice t 1 2 with
        | Option.none => Option.none
        | some s2 =>
          match from_str_radix16 s2 with
          | Option.none => some Option.none
          | some g =>
            match byteSlice t 2 3 with
            | Option.none => Option.none
            | some s3 =>
              match from_str_radix16 s3 with
              | Option.none => some Option.none
              | some b =>
                some (some (Color.trueColor (r * 17) (g * 17) (b * 17)))
  else some Option.none

/-- `parse_hex` of `lib.rs`: strip an optional `#`, then match on the
byte length and parse the 2-byte (full form) or 1-byte (shorthand,
nibble duplicated via `* 17`) slices with `u8::from_str_radix`. The
outer `Option` models the byte-slice panic (`none`), the inner one the
parse failure. -/
def parse_hex (s : List Char) : Option (Option Color) :=
  parse_hex_body (stripHash s)

/-- `parse_hex` produced a color: no slicing panic and no parse failure. -/
def parseHexOk (s : List Char) : Bool :=
  match parse_hex s with
  | some (some _) => true
  | _ => false

/-- `Colorize::try_hexcolor`: the fallible entry point, `parse_hex` then
set the foreground; the outer `Option` is the inherited slicing panic. -/
def ColoredString.try_hexcolor (cs : ColoredString) (hex : List Char) :
    Option (Option ColoredString) :=
  (parse_hex hex).map (Option.map fun c => { cs with fgcolor := some c })

/-- `Colorize::hexcolor` calls `parse_hex(..).unwrap()`; this predicate
holds exactly when that call aborts, by the slicing panic inside
`parse_hex` or by the `unwrap` of a parse failure. -/
def hexcolorPanics (hex : List Char) : Bool :=
  match parse_hex hex with
  | some (some _) => false
  | _ => true

/-- A two-character group accepted by `u8::from_str_radix` at radix 16:
two hex digits, or a `'+'` sign followed by one hex digit. -/
def pairAccepted : List Char → Bool
  | [a, b] => (isHexDigitChar a && isHexDigitChar b) || (a == '+' && isHexDigitChar b)
  | _ => false

/-- Inputs (after the `#` strip) on which `parse_hex` succeeds: exactly
three hex digits, or exactly six characters each of whose three
two-character groups is accepted by the `u8` hex parser. -/
def hexOkCore (t : List Char) : Bool :=
  if t.length = 6 then
    pairAccepted (t.take 2) && pairAccepted ((t.drop 2).take 2)
      && pairAccepted ((t.drop 4).take 2)
  else if t.length = 3 then
    t.all isHexDigitChar
  else false

/-- Inputs on which `parse_hex` succeeds: after stripping one optional
leading `#`, either exactly three hex digits, or exactly six characters
each of whose three two-character groups is accepted by the `u8` hex
parser. -/
def hexInputOk (s : List Char) : Bool := hexOkCore (stripHash s)

lemma splitOnReset_ne_nil (s : List Char) : splitOnReset s ≠ [] := by
  rw [splitOnReset.eq_def]
  cases s with
  | nil => simp
  | cons c rest =>
    simp only
    split
    · simp
    · split <;> simp

lemma insertAfterResets_eq_joinSep (st : List Char) :
    ∀ (n : Nat) (s : List Char), s.length ≤ n →
      insertAfterResets st s = joinSep (RESET ++ st) (splitOnReset s) := by
  intro n
  induction n with
  | zero =>
    intro s hs
    have : s = [] := List.eq_nil_of_length_eq_zero (Nat.le_zero.mp hs)
    subst this
    simp [insertAfterResets, splitOnReset, joinSep]
  | succ n ih =>
    intro s hs
    cases s with
    | nil => simp [insertAfterResets, splitOnReset, joinSep]
    | cons c rest =>
      rw [insertAfterResets.eq_def, splitOnReset.eq_def]
      simp only [List.length_cons, Nat.succ_le_succ_iff] at hs
      by_cases hl : leadsWith RESET (c :: rest) = true
      · simp only [hl, if_true]
        have hrec := ih (rest.drop 3) (by simp only [List.length_drop]; omega)
        rcases hsp : splitOnReset (rest.drop 3) with _ | ⟨h, t⟩
        · exact absurd hsp (splitOnReset_ne_nil _)
        · rw [hrec, hsp]
          simp [joinSep, List.append_assoc]
      · simp only [hl, if_false, Bool.false_eq_true]
        have hrec := ih rest hs
        rcases hsp : splitOnReset rest with _ | ⟨h, t⟩
        · exact absurd hsp (splitOnReset_ne_nil _)
        · rw [hrec, hsp]
          cases t with
          | nil => simp [joinSep]
          | cons y t' => simp [joinSep, List.append_assoc]

lemma splitOnReset_of_not_occurs :
    ∀ s : List Char, occursIn RESET s = false → splitOnReset s = [s] := by
  intro s
  induction s with
  | nil =>
    intro _
    simp [splitOnReset]
  | cons c rest ih =>
    intro h
    simp only [occursIn, Bool.or_eq_false_iff] at h
    rw [splitOnReset.eq_def]
    simp only [h.1, if_false, Bool.false_eq_true, ih h.2]

/-- The strictly-decreasing scan of `pickClosest` either keeps the
accumulator (when nothing beats it) or returns the first entry attaining
the minimum distance among those below the accumulator: every earlier
entry is strictly farther, every later entry no closer. -/
lemma pickClosest_cases (p : Nat × Nat × Nat) :
    ∀ (l : List (Nat × Nat × Nat × Color)) (acc : Nat × Color),
      (pickClosest p l acc = acc ∧ ∀ e ∈ l, acc.1 ≤ entryDist p e) ∨
      (∃ l₁ e l₂, l = l₁ ++ e :: l₂ ∧
        pickClosest p l acc = (entryDist p e, e.2.2.2) ∧
        entryDist p e < acc.1 ∧
        (∀ x ∈ l₁, entryDist p e < entryDist p x) ∧
        (∀ x ∈ l₂, entryDist p e ≤ entryDist p x)) := by
  intro l
  induction l with
  | nil =>
    intro acc
    left
    exact ⟨rfl, by simp⟩
  | cons e rest ih =>
    intro acc
    by_cases hd : distSq p.1 p.2.1 p.2.2 e.1 e.2.1 e.2.2.1 < acc.1
    · have hstep : pickClosest p (e :: rest) acc =
          pickClosest p rest (entryDist p e, e.2.2.2) := by
        simp only [pickClosest]
        rw [if_pos hd]
        rfl
      rcases ih (entryDist p e, e.2.2.2) with ⟨hr, hall⟩ |
        ⟨l₁, f, l₂, heq, hres, hlt, hpre, hpost⟩
      · right
        exact ⟨[], e, rest, rfl, by rw [hstep, hr], hd, by simp,
          fun x hx => hall x hx⟩
      · right
        refine ⟨e :: l₁, f, l₂, by rw [heq, List.cons_append],
          by rw [hstep, hres], lt_trans hlt hd, ?_, hpost⟩
        intro x hx
        rcases List.mem_cons.mp hx with rfl | hx'
        · exact hlt
        · exact hpre x hx'
    · have hstep : pickClosest p (e :: rest) acc = pickClosest p rest acc := by
        simp only [pickClosest]
        rw [if_neg hd]
      rcases ih acc with ⟨hr, hall⟩ | ⟨l₁, f, l₂, heq, hres, hlt, hpre, hpost⟩
      · left
        refine ⟨by rw [hstep, hr], ?_⟩
        intro x hx
        rcases List.mem_cons.mp hx with rfl | hx'
        · exact Nat.le_of_not_lt hd
        · exact hall x hx'
      · right
        refine ⟨e :: l₁, f, l₂, by rw [heq, List.cons_append],
          by rw [hstep, hres], hlt, ?_, hpost⟩
        intro x hx
        rcases List.mem_cons.mp hx with rfl | hx'
        · exact lt_of_lt_of_le hlt (Nat.le_of_not_lt hd)
        · exact hpre x hx'

lemma distSq_le (r g b cr cg cb : Nat) (h1 : r ≤ 255) (h2 : g ≤ 255)
    (h3 : b ≤ 255) (h4 : cr ≤ 255) (h5 : cg ≤ 255) (h6 : cb ≤ 255) :
    distSq r g b cr cg cb ≤ 195075 := by
  have a1 : ((r : Int) - (cr : Int)).natAbs ≤ 255 := by omega
  have a2 : ((g : Int) - (cg : Int)).natAbs ≤ 255 := by omega
  have a3 : ((b : Int) - (cb : Int)).natAbs ≤ 255 := by omega
  have b1 : ((r : Int) - (cr : Int)).natAbs ^ 2 ≤ 65025 := by
    calc ((r : Int) - (cr : Int)).natAbs ^ 2 ≤ 255 ^ 2 := Nat.pow_le_pow_left a1 2
    _ = 65025 := by norm_num
  have b2 : ((g : Int) - (cg : Int)).natAbs ^ 2 ≤ 65025 := by
    calc ((g : Int) - (cg : Int)).natAbs ^ 2 ≤ 255 ^ 2 := Nat.pow_le_pow_left a2 2
    _ = 65025 := by norm_num
  have b3 : ((b : Int) - (cb : Int)).natAbs ^ 2 ≤ 65025 := by
    calc ((b : Int) - (cb : Int)).natAbs ^ 2 ≤ 255 ^ 2 := Nat.pow_le_pow_left a3 2
    _ = 65025 := by norm_num
  simp only [distSq]
  omega

/-- Every `ANSI_16_COLORS` entry has `u8` components. -/
lemma ansi16_entry_le :
    ∀ e ∈ ANSI_16_COLORS, e.1 ≤ 255 ∧ e.2.1 ≤ 255 ∧ e.2.2.1 ≤ 255 := by
  decide

/-- `fallback_to_ansi16` of any color whose expansion exists and is in
`u8` range is the first entry of the table attaining the minimum squared
distance. -/
lemma fallback16_decomp (c : Color) (p : Nat × Nat × Nat)
    (hexp : c.rgbExpand = some p)
    (h1 : p.1 ≤ 255) (h2 : p.2.1 ≤ 255) (h3 : p.2.2 ≤ 255) :
    ∃ l₁ e l₂, ANSI_16_COLORS = l₁ ++ e :: l₂ ∧
      c.fallback_to_ansi16 = e.2.2.2 ∧
      (∀ x ∈ l₁, entryDist p e < entryDist p x) ∧
      (∀ x ∈ ANSI_16_COLORS, entryDist p e ≤ entryDist p x) := by
  have hfb : c.fallback_to_ansi16 = (pickClosest p ANSI_16_COLORS (u32Max, c)).2 := by
    simp [Color.fallback_to_ansi16, hexp]
  rcases pickClosest_cases p ANSI_16_COLORS (u32Max, c) with ⟨hr, hall⟩ |
    ⟨l₁, e, l₂, heq, hres, hlt, hpre, hpost⟩
  · exfalso
    have hmem : ((0, 0, 0, Color.black) : Nat × Nat × Nat × Color) ∈ ANSI_16_COLORS := by
      simp [ANSI_16_COLORS]
    have hge := hall _ hmem
    have hb : entryDist p (0, 0, 0, Color.black) ≤ 195075 := by
      have := distSq_le p.1 p.2.1 p.2.2 0 0 0 h1 h2 h3 (by norm_num) (by norm_num)
        (by norm_num)
      simpa [entryDist] using this
    simp only [u32Max] at hge
    omega
  · refine ⟨l₁, e, l₂, heq, by rw [hfb, hres], hpre, ?_⟩
    intro x hx
    rw [heq] at hx
    rcases List.mem_append.mp hx with hx1 | hx2
    · exact le_of_lt (hpre x hx1)
    · rcases List.mem_cons.mp hx2 with rfl | hx3
      · exact le_rfl
      · exact hpost x hx3

/-- Each color stored in the table is one of the 16 named colors, and
`fallback_to_ansi16` leaves it unchanged. -/
lemma fallback16_fixed_on_table :
    ∀ x ∈ ANSI_16_COLORS, Color.fallback_to_ansi16 x.2.2.2 = x.2.2.2 := by
  decide

lemma hexVal_le_15 {c : Char} {d : Nat} (h : hexVal c = some d) : d ≤ 15 := by
  unfold hexVal at h
  split_ifs at h with h1 h2 h3 <;> simp only [Option.some.injEq] at h <;> omega

lemma hexAccum_single (b : Char) :
    (hexAccum [b] 0).isSome = isHexDigitChar b := by
  cases hv : hexVal b with
  | none => simp [hexAccum, hv, isHexDigitChar]
  | some d =>
    have hd := hexVal_le_15 hv
    simp only [hexAccum, hv, Nat.zero_mul, Nat.zero_add]
    rw [if_neg (by omega)]
    simp [isHexDigitChar, hv, hexAccum]

lemma fsr_single (a : Char) :
    (from_str_radix16 [a]).isSome = isHexDigitChar a := by
  by_cases ha : a = '+'
  · subst ha
    decide
  · have hL : from_str_radix16 [a] = hexAccum [a] 0 := by
      show (if a = '+' then
          (if List.isEmpty ([] : List Char) = true then Option.none else hexAccum [] 0)
        else hexAccum [a] 0) = hexAccum [a] 0
      rw [if_neg ha]
    rw [hL]
    exact hexAccum_single a

lemma fsr_pair (a b : Char) :
    (from_str_radix16 [a, b]).isSome = pairAccepted [a, b] := by
  by_cases ha : a = '+'
  · subst ha
    have hL : from_str_radix16 ['+', b] = hexAccum [b] 0 := rfl
    have hR : pairAccepted ['+', b] = isHexDigitChar b := by
      have h1 : isHexDigitChar '+' = false := by decide
      simp [pairAccepted, h1]
    rw [hL, hR]
    exact hexAccum_single b
  · have hL : from_str_radix16 [a, b] = hexAccum [a, b] 0 := by
      show (if a = '+' then
          (if List.isEmpty [b] = true then Option.none else hexAccum [b] 0)
        else hexAccum [a, b] 0) = hexAccum [a, b] 0
      rw [if_neg ha]
    have hR : pairAccepted [a, b] = (isHexDigitChar a && isHexDigitChar b) := by
      have ha' : (a == '+') = false := by
        simp [ha]
      simp [pairAccepted, ha']
    rw [hL, hR]
    cases hva : hexVal a with
    | none => simp [hexAccum, hva, isHexDigitChar]
    | some d1 =>
      have hd1 := hexVal_le_15 hva
      simp only [hexAccum, hva, Nat.zero_mul, Nat.zero_add]
      rw [if_neg (by omega)]
      cases hvb : hexVal b with
      | none => simp [hexAccum, hvb, isHexDigitChar, hva]
      | some d2 =>
        have hd2 := hexVal_le_15 hvb
        simp only [hexAccum, hvb]
        rw [if_neg (by omega)]
        simp [hexAccum, isHexDigitChar, hva, hvb]

lemma list_len_six {α : Type} {l : List α} (h : l.length = 6) :
    ∃ a b c d e f, l = [a, b, c, d, e, f] := by
  rcases l with _ | ⟨a, l⟩
  · simp at h
  rcases l with _ | ⟨b, l⟩
  · simp at h
  rcases l with _ | ⟨c, l⟩
  · simp at h
  rcases l with _ | ⟨d, l⟩
  · simp at h
  rcases l with _ | ⟨e, l⟩
  · simp at h
  rcases l with _ | ⟨f, l⟩
  · simp at h
  rcases l with _ | ⟨g, l⟩
  · exact ⟨a, b, c, d, e, f, rfl⟩
  · simp only [List.length_cons] at h
    omega

lemma list_len_three {α : Type} {l : List α} (h : l.length = 3) :
    ∃ a b c, l = [a, b, c] := by
  rcases l with _ | ⟨a, l⟩
  · simp at h
  rcases l with _ | ⟨b, l⟩
  · simp at h
  rcases l with _ | ⟨c, l⟩
  · simp at h
  rcases l with _ | ⟨d, l⟩
  · exact ⟨a, b, c, rfl⟩
  · simp only [List.length_cons] at h
    omega

lemma list_len_two {α : Type} {l : List α} (h : l.length = 2) :
    ∃ a b, l = [a, b] := by
  rcases l with _ | ⟨a, l⟩
  · simp at h
  rcases l with _ | ⟨b, l⟩
  · simp at h
  rcases l with _ | ⟨c, l⟩
  · exact ⟨a, b, rfl⟩
  · simp only [List.length_cons] at h
    omega

lemma list_len_one {α : Type} {l : List α} (h : l.length = 1) :
    ∃ a, l = [a] := by
  rcases l with _ | ⟨a, l⟩
  · simp at h
  rcases l with _ | ⟨b, l⟩
  · exact ⟨a, rfl⟩
  · simp only [List.length_cons] at h
    omega

lemma utf8Len_pos (c : Char) : 1 ≤ utf8Len c := by
  unfold utf8Len
  split_ifs <;> omega

lemma ascii_utf8Len {c : Char} (h : charAscii c = true) : utf8Len c = 1 := by
  simp only [charAscii, decide_eq_true_eq] at h
  simp [utf8Len, h]

lemma byteLen_cons (c : Char) (s : List Char) :
    byteLen (c :: s) = utf8Len c + byteLen s := by
  simp [byteLen]

lemma byteLen_append (a b : List Char) :
    byteLen (a ++ b) = byteLen a + byteLen b := by
  simp [byteLen]

lemma byteLen_eq_zero {s : List Char} (h : byteLen s = 0) : s = [] := by
  cases s with
  | nil => rfl
  | cons c rest =>
    rw [byteLen_cons] at h
    have := utf8Len_pos c
    omega

lemma byteLen_ascii : ∀ {s : List Char}, s.all charAscii = true →
    byteLen s = s.length := by
  intro s
  induction s with
  | nil => intro _; rfl
  | cons c rest ih =>
    intro h
    simp only [List.all_cons, Bool.and_eq_true] at h
    rw [byteLen_cons, ascii_utf8Len h.1, ih h.2, List.length_cons]
    omega

lemma byteDrop_zero (s : List Char) : byteDrop s 0 = some s := by
  cases s <;> rfl

lemma byteSlice_zero (t : List Char) (b : Nat) : byteSlice t 0 b = byteTake t b := by
  simp [byteSlice, byteDrop_zero]

lemma byteDrop_ascii : ∀ (s : List Char) (n : Nat), s.all charAscii = true →
    n ≤ s.length → byteDrop s n = some (s.drop n) := by
  intro s
  induction s with
  | nil =>
    intro n _ hn
    have hz : n = 0 := by simpa using hn
    subst hz
    rfl
  | cons c rest ih =>
    intro n h hn
    cases n with
    | zero => rfl
    | succ m =>
      simp only [List.all_cons, Bool.and_eq_true] at h
      have hc := ascii_utf8Len h.1
      simp only [byteDrop, hc]
      rw [if_pos (by omega)]
      have hm : m + 1 - 1 = m := by omega
      rw [hm, ih m h.2 (by simpa using hn)]
      rfl

lemma byteTake_ascii : ∀ (s : List Char) (n : Nat), s.all charAscii = true →
    n ≤ s.length → byteTake s n = some (s.take n) := by
  intro s
  induction s with
  | nil =>
    intro n _ hn
    have hz : n = 0 := by simpa using hn
    subst hz
    rfl
  | cons c rest ih =>
    intro n h hn
    cases n with
    | zero => rfl
    | succ m =>
      simp only [List.all_cons, Bool.and_eq_true] at h
      have hc := ascii_utf8Len h.1
      simp only [byteTake, hc]
      rw [if_pos (by omega)]
      have hm : m + 1 - 1 = m := by omega
      rw [hm, ih m h.2 (by simpa using hn)]
      rfl

lemma byteDrop_trans : ∀ (s : List Char) (a b : Nat) (r r' : List Char),
    byteDrop s a = some r → byteDrop r b = some r' →
    byteDrop s (a + b) = some r' := by
  intro s
  induction s with
  | nil =>
    intro a b r r' h1 h2
    cases a with
    | zero =>
      rw [byteDrop_zero] at h1
      simp only [Option.some.injEq] at h1
      subst h1
      simpa using h2
    | succ m => simp [byteDrop] at h1
  | cons c rest ih =>
    intro a b r r' h1 h2
    cases a with
    | zero =>
      rw [byteDrop_zero] at h1
      simp only [Option.some.injEq] at h1
      subst h1
      simpa using h2
    | succ m =>
      simp only [byteDrop] at h1
      by_cases hc : utf8Len c ≤ m + 1
      · rw [if_pos hc] at h1
        have hrec := ih (m + 1 - utf8Len c) b r r' h1 h2
        have he : m + 1 + b = (m + b) + 1 := by omega
        rw [he]
        simp only [byteDrop]
        rw [if_pos (by omega)]
        have he2 : m + b + 1 - utf8Len c = m + 1 - utf8Len c + b := by omega
        rw [he2]
        exact hrec
      · rw [if_neg hc] at h1
        exact absurd h1 (by simp)

/-- Inverting a successful `byteTake`: the slice has exactly `n` bytes,
and the string splits as slice ++ remainder with `byteDrop` agreeing. -/
lemma byteTake_spec : ∀ (s : List Char) (n : Nat) (g : List Char),
    byteTake s n = some g →
    byteLen g = n ∧ ∃ r, byteDrop s n = some r ∧ s = g ++ r := by
  intro s
  induction s with
  | nil =>
    intro n g h
    cases n with
    | zero =>
      simp only [byteTake, Option.some.injEq] at h
      subst h
      exact ⟨rfl, [], rfl, rfl⟩
    | succ m => simp [byteTake] at h
  | cons c rest ih =>
    intro n g h
    cases n with
    | zero =>
      simp only [byteTake, Option.some.injEq] at h
      subst h
      exact ⟨rfl, c :: rest, byteDrop_zero _, rfl⟩
    | succ m =>
      simp only [byteTake] at h
      by_cases hc : utf8Len c ≤ m + 1
      · rw [if_pos hc] at h
        rcases hbt : byteTake rest (m + 1 - utf8Len c) with _ | g'
        · rw [hbt] at h
          simp at h
        · rw [hbt] at h
          simp only [Option.map_some', Option.some.injEq] at h
          subst h
          obtain ⟨hbl, r, hdr, hse⟩ := ih (m + 1 - utf8Len c) g' hbt
          refine ⟨?_, r, ?_, ?_⟩
          · rw [byteLen_cons, hbl]
            omega
          · simp only [byteDrop]
            rw [if_pos hc]
            exact hdr
          · rw [hse]
            rfl
      · rw [if_neg hc] at h
        exact absurd h (by simp)

lemma all_drop {p : Char → Bool} {t : List Char} (h : t.all p = true) (n : Nat) :
    (t.drop n).all p = true := by
  simp only [List.all_eq_true] at *
  intro x hx
  exact h x (List.mem_of_mem_drop hx)

lemma hexVal_ascii {c : Char} {d : Nat} (h : hexVal c = some d) :
    charAscii c = true := by
  unfold hexVal at h
  split_ifs at h with h1 h2 h3
  · simp only [charAscii, decide_eq_true_eq]
    omega
  · simp only [charAscii, decide_eq_true_eq]
    omega
  · simp only [charAscii, decide_eq_true_eq]
    omega

lemma isHex_ascii {c : Char} (h : isHexDigitChar c = true) : charAscii c = true := by
  simp only [isHexDigitChar] at h
  rcases hv : hexVal c with _ | d
  · rw [hv] at h
    simp at h
  · exact hexVal_ascii hv

lemma hexAccum_ascii : ∀ (g : List Char) (acc v : Nat),
    hexAccum g acc = some v → g.all charAscii = true := by
  intro g
  induction g with
  | nil => intro acc v _; rfl
  | cons c rest ih =>
    intro acc v h
    rcases hv : hexVal c with _ | d
    · simp only [hexAccum, hv] at h
      exact absurd h (by simp)
    · simp only [hexAccum, hv] at h
      by_cases hov : 255 < acc * 16 + d
      · rw [if_pos hov] at h
        exact absurd h (by simp)
      · rw [if_neg hov] at h
        simp only [List.all_cons, Bool.and_eq_true]
        exact ⟨hexVal_ascii hv, ih _ _ h⟩

/-- A string accepted by `u8::from_str_radix` is all-ASCII (digits and
the `'+'` sign are one-byte characters). -/
lemma fsr_ascii : ∀ {g : List Char} {v : Nat},
    from_str_radix16 g = some v → g.all charAscii = true := by
  intro g v h
  cases g with
  | nil => exact absurd h (by simp [from_str_radix16])
  | cons c rest =>
    by_cases hc : c = '+'
    · subst hc
      cases rest with
      | nil =>
        rw [show from_str_radix16 ['+'] = Option.none from rfl] at h
        exact absurd h (by simp)
      | cons d rest' =>
        have hL : from_str_radix16 ('+' :: d :: rest') = hexAccum (d :: rest') 0 := rfl
        rw [hL] at h
        have hrest := hexAccum_ascii _ _ _ h
        simp only [List.all_cons, Bool.and_eq_true] at hrest ⊢
        exact ⟨by decide, hrest⟩
    · have hL : from_str_radix16 (c :: rest) = hexAccum (c :: rest) 0 := by
        show (if c = '+' then
            (if List.isEmpty rest = true then Option.none else hexAccum rest 0)
          else hexAccum (c :: rest) 0) = hexAccum (c :: rest) 0
        rw [if_neg hc]
      rw [hL] at h
      exact hexAccum_ascii _ _ _ h

lemma pairAccepted_ascii {a b : Char} (h : pairAccepted [a, b] = true) :
    charAscii a = true ∧ charAscii b = true := by
  simp only [pairAccepted, Bool.or_eq_true, Bool.and_eq_true] at h
  rcases h with ⟨ha, hb⟩ | ⟨ha, hb⟩
  · exact ⟨isHex_ascii ha, isHex_ascii hb⟩
  · have ha' : a = '+' := by simpa using ha
    subst ha'
    exact ⟨by decide, isHex_ascii hb⟩

lemma hexOkCore_six (a1 a2 a3 a4 a5 a6 : Char) :
    hexOkCore [a1, a2, a3, a4, a5, a6] =
      (pairAccepted [a1, a2] && pairAccepted [a3, a4] && pairAccepted [a5, a6]) := rfl

lemma hexOkCore_three (a1 a2 a3 : Char) :
    hexOkCore [a1, a2, a3] = List.all [a1, a2, a3] isHexDigitChar := rfl

/-- Inversion of a successful `parse_hex_body`: the three slices exist,
parse, and force the stripped input into the accepted shape. -/
lemma parse_ok_imp_accept : ∀ (t : List Char) (c : Color),
    parse_hex_body t = some (some c) → hexOkCore t = true := by
  intro t c h
  by_cases h6 : byteLen t = 6
  · simp only [parse_hex_body] at h
    rw [if_pos h6] at h
    split at h
    · exact absurd h (by simp)
    next s1 hS1 =>
    split at h
    · exact absurd h (by simp)
    next r hP1 =>
    split at h
    · exact absurd h (by simp)
    next s2 hS2 =>
    split at h
    · exact absurd h (by simp)
    next g hP2 =>
    split at h
    · exact absurd h (by simp)
    next s3 hS3 =>
    split at h
    · exact absurd h (by simp)
    next b hP3 =>
    have hT1 : byteTake t 2 = some s1 := by
      rw [← byteSlice_zero t 2]
      exact hS1
    obtain ⟨hbl1, r1, hdrop1, hteq1⟩ := byteTake_spec t 2 s1 hT1
    have hT2 : byteTake r1 2 = some s2 := by
      have hx : byteSlice t 2 4 = byteTake r1 2 := by
        simp [byteSlice, hdrop1]
      rw [hx] at hS2
      exact hS2
    obtain ⟨hbl2, r2, hdrop2, hteq2⟩ := byteTake_spec r1 2 s2 hT2
    have hdrop4 : byteDrop t 4 = some r2 := by
      have := byteDrop_trans t 2 2 r1 r2 hdrop1 hdrop2
      simpa using this
    have hT3 : byteTake r2 2 = some s3 := by
      have hx : byteSlice t 4 6 = byteTake r2 2 := by
        simp [byteSlice, hdrop4]
      rw [hx] at hS3
      exact hS3
    obtain ⟨hbl3, r3, hdrop3, hteq3⟩ := byteTake_spec r2 2 s3 hT3
    have hr3 : r3 = [] := by
      apply byteLen_eq_zero
      have e1 : byteLen t = byteLen s1 + byteLen r1 := by rw [hteq1, byteLen_append]
      have e2 : byteLen r1 = byteLen s2 + byteLen r2 := by rw [hteq2, byteLen_append]
      have e3 : byteLen r2 = byteLen s3 + byteLen r3 := by rw [hteq3, byteLen_append]
      omega
    subst hr3
    have ha1 := fsr_ascii hP1
    have ha2 := fsr_ascii hP2
    have ha3 := fsr_ascii hP3
    have hl1 : s1.length = 2 := by rw [← byteLen_ascii ha1]; exact hbl1
    have hl2 : s2.length = 2 := by rw [← byteLen_ascii ha2]; exact hbl2
    have hl3 : s3.length = 2 := by rw [← byteLen_ascii ha3]; exact hbl3
    obtain ⟨a1, a2, rfl⟩ := list_len_two hl1
    obtain ⟨a3, a4, rfl⟩ := list_len_two hl2
    obtain ⟨a5, a6, rfl⟩ := list_len_two hl3
    subst hteq3
    subst hteq2
    subst hteq1
    have hgoal : ([a1, a2] ++ ([a3, a4] ++ ([a5, a6] ++ ([] : List Char)))) =
        [a1, a2, a3, a4, a5, a6] := by simp
    rw [hgoal, hexOkCore_six]
    have q1 : pairAccepted [a1, a2] = true := by
      rw [← fsr_pair, hP1]
      rfl
    have q2 : pairAccepted [a3, a4] = true := by
      rw [← fsr_pair, hP2]
      rfl
    have q3 : pairAccepted [a5, a6] = true := by
      rw [← fsr_pair, hP3]
      rfl
    simp [q1, q2, q3]
  · by_cases h3 : byteLen t = 3
    · simp only [parse_hex_body] at h
      rw [if_neg h6, if_pos h3] at h
      split at h
      · exact absurd h (by simp)
      next s1 hS1 =>
      split at h
      · exact absurd h (by simp)
      next r hP1 =>
      split at h
      · exact absurd h (by simp)
      next s2 hS2 =>
      split at h
      · exact absurd h (by simp)
      next g hP2 =>
      split at h
      · exact absurd h (by simp)
      next s3 hS3 =>
      split at h
      · exact absurd h (by simp)
      next b hP3 =>
      have hT1 : byteTake t 1 = some s1 := by
        rw [← byteSlice_zero t 1]
        exact hS1
      obtain ⟨hbl1, r1, hdrop1, hteq1⟩ := byteTake_spec t 1 s1 hT1
      have hT2 : byteTake r1 1 = some s2 := by
        have hx : byteSlice t 1 2 = byteTake r1 1 := by
          simp [byteSlice, hdrop1]
        rw [hx] at hS2
        exact hS2
      obtain ⟨hbl2, r2, hdrop2, hteq2⟩ := byteTake_spec r1 1 s2 hT2
      have hdrop2' : byteDrop t 2 = some r2 := by
        have := byteDrop_trans t 1 1 r1 r2 hdrop1 hdrop2
        simpa using this
      have hT3 : byteTake r2 1 = some s3 := by
        have hx : byteSlice t 2 3 = byteTake r2 1 := by
          simp [byteSlice, hdrop2']
        rw [hx] at hS3
        exact hS3
      obtain ⟨hbl3, r3, hdrop3, hteq3⟩ := byteTake_spec r2 1 s3 hT3
      have hr3 : r3 = [] := by
        apply byteLen_eq_zero
        have e1 : byteLen t = byteLen s1 + byteLen r1 := by rw [hteq1, byteLen_append]
        have e2 : byteLen r1 = byteLen s2 + byteLen r2 := by rw [hteq2, byteLen_append]
        have e3 : byteLen r2 = byteLen s3 + byteLen r3 := by rw [hteq3, byteLen_append]
        omega
      subst hr3
      have ha1 := fsr_ascii hP1
      have ha2 := fsr_ascii hP2
      have ha3 := fsr_ascii hP3
      have hl1 : s1.length = 1 := by rw [← byteLen_ascii ha1]; exact hbl1
      have hl2 : s2.length = 1 := by rw [← byteLen_ascii ha2]; exact hbl2
      have hl3 : s3.length = 1 := by rw [← byteLen_ascii ha3]; exact hbl3
      obtain ⟨a1, rfl⟩ := list_len_one hl1
      obtain ⟨a2, rfl⟩ := list_len_one hl2
      obtain ⟨a3, rfl⟩ := list_len_one hl3
      subst hteq3
      subst hteq2
      subst hteq1
      have hgoal : ([a1] ++ ([a2] ++ ([a3] ++ ([] : List Char)))) = [a1, a2, a3] := by
        simp
      rw [hgoal, hexOkCore_three]
      have q1 : isHexDigitChar a1 = true := by
        rw [← fsr_single, hP1]
        rfl
      have q2 : isHexDigitChar a2 = true := by
        rw [← fsr_single, hP2]
        rfl
      have q3 : isHexDigitChar a3 = true := by
        rw [← fsr_single, hP3]
        rfl
      simp [q1, q2, q3]
    · simp only [parse_hex_body] at h
      rw [if_neg h6, if_neg h3] at h
      exact absurd h (by simp)

/-- Accepted inputs are all-ASCII, so the byte slices land on character
boundaries and the parse succeeds. -/
lemma accept_imp_parse_ok : ∀ (t : List Char),
    hexOkCore t = true → ∃ c, parse_hex_body t = some (some c) := by
  intro t h
  by_cases hl6 : t.length = 6
  · obtain ⟨a1, a2, a3, a4, a5, a6, rfl⟩ := list_len_six hl6
    rw [hexOkCore_six] at h
    simp only [Bool.and_eq_true] at h
    obtain ⟨⟨hq1, hq2⟩, hq3⟩ := h
    obtain ⟨hA1, hA2⟩ := pairAccepted_ascii hq1
    obtain ⟨hA3, hA4⟩ := pairAccepted_ascii hq2
    obtain ⟨hA5, hA6⟩ := pairAccepted_ascii hq3
    have hall : List.all [a1, a2, a3, a4, a5, a6] charAscii = true := by
      simp [hA1, hA2, hA3, hA4, hA5, hA6]
    have hbl : byteLen [a1, a2, a3, a4, a5, a6] = 6 := by
      rw [byteLen_ascii hall]
      rfl
    have hs1 : byteSlice [a1, a2, a3, a4, a5, a6] 0 2 = some [a1, a2] := by
      rw [byteSlice_zero]
      exact byteTake_ascii _ 2 hall (by simp)
    have hd2 : byteDrop [a1, a2, a3, a4, a5, a6] 2 = some [a3, a4, a5, a6] :=
      byteDrop_ascii _ 2 hall (by simp)
    have hs2 : byteSlice [a1, a2, a3, a4, a5, a6] 2 4 = some [a3, a4] := by
      simp only [byteSlice, hd2]
      exact byteTake_ascii [a3, a4, a5, a6] 2 (by simp [hA3, hA4, hA5, hA6])
        (by simp)
    have hd4 : byteDrop [a1, a2, a3, a4, a5, a6] 4 = some [a5, a6] :=
      byteDrop_ascii _ 4 hall (by simp)
    have hs3 : byteSlice [a1, a2, a3, a4, a5, a6] 4 6 = some [a5, a6] := by
      simp only [byteSlice, hd4]
      exact byteTake_ascii [a5, a6] 2 (by simp [hA5, hA6]) (by simp)
    have hf1 : (from_str_radix16 [a1, a2]).isSome = true := by
      rw [fsr_pair]
      exact hq1
    have hf2 : (from_str_radix16 [a3, a4]).isSome = true := by
      rw [fsr_pair]
      exact hq2
    have hf3 : (from_str_radix16 [a5, a6]).isSome = true := by
      rw [fsr_pair]
      exact hq3
    obtain ⟨r, hr⟩ := Option.isSome_iff_exists.mp hf1
    obtain ⟨g, hg⟩ := Option.isSome_iff_exists.mp hf2
    obtain ⟨b, hb⟩ := Option.isSome_iff_exists.mp hf3
    refine ⟨Color.trueColor r g b, ?_⟩
    simp only [parse_hex_body]
    rw [if_pos hbl]
    simp [hs1, hr, hs2, hg, hs3, hb]
  · by_cases hl3 : t.length = 3
    · obtain ⟨a1, a2, a3, rfl⟩ := list_len_three hl3
      rw [hexOkCore_three] at h
      simp only [List.all_cons, List.all_nil, Bool.and_eq_true, Bool.and_true] at h
      obtain ⟨hq1, hq2, hq3⟩ := h
      have hA1 := isHex_ascii hq1
      have hA2 := isHex_ascii hq2
      have hA3 := isHex_ascii hq3
      have hall : List.all [a1, a2, a3] charAscii = true := by
        simp [hA1, hA2, hA3]
      have hbl : byteLen [a1, a2, a3] = 3 := by
        rw [byteLen_ascii hall]
        rfl
      have hs1 : byteSlice [a1, a2, a3] 0 1 = some [a1] := by
        rw [byteSlice_zero]
        exact byteTake_ascii _ 1 hall (by simp)
      have hd1 : byteDrop [a1, a2, a3] 1 = some [a2, a3] :=
        byteDrop_ascii _ 1 hall (by simp)
      have hs2 : byteSlice [a1, a2, a3] 1 2 = some [a2] := by
        simp only [byteSlice, hd1]
        exact byteTake_ascii [a2, a3] 1 (by simp [hA2, hA3]) (by simp)
      have hd2 : byteDrop [a1, a2, a3] 2 = some [a3] :=
        byteDrop_ascii _ 2 hall (by simp)
      have hs3 : byteSlice [a1, a2, a3] 2 3 = some [a3] := by
        simp only [byteSlice, hd2]
        exact byteTake_ascii [a3] 1 (by simp [hA3]) (by simp)
      have hf1 : (from_str_radix16 [a1]).isSome = true := by
        rw [fsr_single]
        exact hq1
      have hf2 : (from_str_radix16 [a2]).isSome = true := by
        rw [fsr_single]
        exact hq2
      have hf3 : (from_str_radix16 [a3]).isSome = true := by
        rw [fsr_single]
        exact hq3
      obtain ⟨r, hr⟩ := Option.isSome_iff_exists.mp hf1
      obtain ⟨g, hg⟩ := Option.isSome_iff_exists.mp hf2
      obtain ⟨b, hb⟩ := Option.isSome_iff_exists.mp hf3
      refine ⟨Color.trueColor (r * 17) (g * 17) (b * 17), ?_⟩
      simp only [parse_hex_body]
      rw [if_neg (by simp [hbl]), if_pos hbl]
      simp [hs1, hr, hs2, hg, hs3, hb]
    · have hfalse : hexOkCore t = false := by
        simp [hexOkCore, hl6, hl3]
      rw [hfalse] at h
      exact absurd h (by simp)

/-- The slicing panic can only arise from a multi-byte character inside
a stripped input of byte length 3 or 6. -/
lemma parse_panic_shape (t : List Char) (h : parse_hex_body t = Option.none) :
    (byteLen t = 3 ∨ byteLen t = 6) ∧ ¬ t.all charAscii = true := by
  by_cases h6 : byteLen t = 6
  · refine ⟨Or.inr h6, ?_⟩
    intro hall
    have hlen : t.length = 6 := by rw [← byteLen_ascii hall]; exact h6
    have hs1 : byteSlice t 0 2 = some (t.take 2) := by
      rw [byteSlice_zero]
      exact byteTake_ascii t 2 hall (by omega)
    have hd2 : byteDrop t 2 = some (t.drop 2) := byteDrop_ascii t 2 hall (by omega)
    have hs2 : byteSlice t 2 4 = some ((t.drop 2).take 2) := by
      simp only [byteSlice, hd2]
      exact byteTake_ascii (t.drop 2) 2 (all_drop hall 2)
        (by simp [List.length_drop, hlen])
    have hd4 : byteDrop t 4 = some (t.drop 4) := byteDrop_ascii t 4 hall (by omega)
    have hs3 : byteSlice t 4 6 = some ((t.drop 4).take 2) := by
      simp only [byteSlice, hd4]
      exact byteTake_ascii (t.drop 4) 2 (all_drop hall 4)
        (by simp [List.length_drop, hlen])
    simp only [parse_hex_body] at h
    rw [if_pos h6] at h
    split at h
    next heq =>
      rw [hs1] at heq
      exact Option.noConfusion heq
    next s1 hS1 =>
    rw [hs1] at hS1
    simp only [Option.some.injEq] at hS1
    subst hS1
    split at h
    next _ => exact Option.noConfusion h
    next r hP1 =>
    split at h
    next heq =>
      rw [hs2] at heq
      exact Option.noConfusion heq
    next s2 hS2 =>
    rw [hs2] at hS2
    simp only [Option.some.injEq] at hS2
    subst hS2
    split at h
    next _ => exact Option.noConfusion h
    next g hP2 =>
    split at h
    next heq =>
      rw [hs3] at heq
      exact Option.noConfusion heq
    next s3 hS3 =>
    split at h
    next _ => exact Option.noConfusion h
    next b hP3 =>
    exact Option.noConfusion h
  · by_cases h3 : byteLen t = 3
    · refine ⟨Or.inl h3, ?_⟩
      intro hall
      have hlen : t.length = 3 := by rw [← byteLen_ascii hall]; exact h3
      have hs1 : byteSlice t 0 1 = some (t.take 1) := by
        rw [byteSlice_zero]
        exact byteTake_ascii t 1 hall (by omega)
      have hd1 : byteDrop t 1 = some (t.drop 1) := byteDrop_ascii t 1 hall (by omega)
      have hs2 : byteSlice t 1 2 = some ((t.drop 1).take 1) := by
        simp only [byteSlice, hd1]
        exact byteTake_ascii (t.drop 1) 1 (all_drop hall 1)
          (by simp [List.length_drop, hlen])
      have hd2 : byteDrop t 2 = some (t.drop 2) := byteDrop_ascii t 2 hall (by omega)
      have hs3 : byteSlice t 2 3 = some ((t.drop 2).take 1) := by
        simp only [byteSlice, hd2]
        exact byteTake_ascii (t.drop 2) 1 (all_drop hall 2)
          (by simp [List.length_drop, hlen])
      simp only [parse_hex_body] at h
      rw [if_neg h6, if_pos h3] at h
      split at h
      next heq =>
        rw [hs1] at heq
        exact Option.noConfusion heq
      next s1 hS1 =>
      rw [hs1] at hS1
      simp only [Option.some.injEq] at hS1
      subst hS1
      split at h
      next _ => exact Option.noConfusion h
      next r hP1 =>
      split at h
      next heq =>
        rw [hs2] at heq
        exact Option.noConfusion heq
      next s2 hS2 =>
      rw [hs2] at hS2
      simp only [Option.some.injEq] at hS2
      subst hS2
      split at h
      next _ => exact Option.noConfusion h
      next g hP2 =>
      split at h
      next heq =>
        rw [hs3] at heq
        exact Option.noConfusion heq
      next s3 hS3 =>
      split at h
      next _ => exact Option.noConfusion h
      next b hP3 =>
      exact Option.noConfusion h
    · simp only [parse_hex_body] at h
      rw [if_neg h6, if_neg h3] at h
      exact absurd h (by simp)

/-- C8: for every `Style` byte, `Style::to_str` joins the SGR code of
every set attribute in the order Bold, Dimmed, Underline, Reversed,
Italic, Blink, Hidden, Strikethrough with `;` as separator, and the
Clear style serializes to the empty string. -/
theorem style_to_str_joins_codes_in_order :
    (∀ b : Fin 256, Style.to_str ⟨b.val⟩ = specSerializeCodes ⟨b.val⟩) ∧
      Style.to_str CLEAR = "".toList := by
  constructor
  · decide
  · decide

/-- C10: for every `Style` byte, `contains Styles::Clear` is true — the
subset test `self.0 & 0 == 0` holds for every style, empty or not. -/
theorem style_contains_clear_always_true :
    ∀ b : Fin 256, Style.contains ⟨b.val⟩ Styles.clear = true := by
  decide

/-- C5: rendering with capability `None` (Disabled), or rendering a plain
value, returns the input text unchanged. -/
theorem render_plain_or_disabled_is_input (cs : ColoredString) (lvl : ColorLevel)
    (h : lvl = ColorLevel.none ∨ cs.is_plain = true) :
    cs.render lvl = cs.input := by
  rcases h with h | h
  · simp [ColoredString.render, hasColors, h]
  · simp [ColoredString.render, h]

theorem render_plain_or_disabled_is_input_witness :
    ColoredString.render ⟨"hi".toList, Option.none, Option.none, CLEAR⟩
      ColorLevel.none = "hi".toList :=
  render_plain_or_disabled_is_input _ _ (Or.inl rfl)

/-- C1 (divergence of the code from the claim): for the indexed color
`Ansi256 196` under capability `Ansi16`, `to_bg_str` downgrades to the
nearest 16-color (`BrightRed`, background code `101`), but `to_fg_str`
ignores the level and emits `38;5;196`, not the downgraded `91`. At the
other enabled levels both emit the `38;5;196` / `48;5;196` forms. -/
theorem ansi256_fg_ignores_ansi16_level :
    Color.to_fg_str (Color.ansi256 196) ColorLevel.ansi16 = "38;5;196".toList ∧
    (Color.ansi256 196).fallback_to_ansi16 = Color.brightRed ∧
    Color.to_fg_str Color.brightRed ColorLevel.ansi16 = "91".toList ∧
    Color.to_bg_str (Color.ansi256 196) ColorLevel.ansi16 = "101".toList ∧
    Color.to_fg_str (Color.ansi256 196) ColorLevel.ansi16 ≠
      ((Color.ansi256 196).fallback_to_ansi16).to_fg_str ColorLevel.ansi16 ∧
    Color.to_fg_str (Color.ansi256 196) ColorLevel.ansi256 = "38;5;196".toList ∧
    Color.to_fg_str (Color.ansi256 196) ColorLevel.truecolor = "38;5;196".toList ∧
    Color.to_bg_str (Color.ansi256 196) ColorLevel.ansi256 = "48;5;196".toList ∧
    Color.to_bg_str (Color.ansi256 196) ColorLevel.truecolor = "48;5;196".toList := by
  decide

/-- C6: `ansi256_to_rgb` is the deterministic palette expansion: the
16-color table below 16, the 6×6×6 cube with base-6 digit selection
(R digit first) on 16–231, the grayscale ramp `8 + 10·(idx−232)` on
232–255, with the four landmark values of the spec. -/
theorem ansi256_to_rgb_palette (idx : Nat) (hidx : idx < 256) :
    (idx < 16 →
      ansi256_to_rgb idx =
        ((ANSI_16_COLORS.getD idx (0, 0, 0, Color.black)).1,
         (ANSI_16_COLORS.getD idx (0, 0, 0, Color.black)).2.1,
         (ANSI_16_COLORS.getD idx (0, 0, 0, Color.black)).2.2.1)) ∧
    (16 ≤ idx → idx ≤ 231 →
      ansi256_to_rgb idx =
        (CUBE_VALUES.getD ((idx - 16) / 36) 0,
         CUBE_VALUES.getD ((idx - 16) / 6 % 6) 0,
         CUBE_VALUES.getD ((idx - 16) % 6) 0)) ∧
    (232 ≤ idx →
      ansi256_to_rgb idx =
        (8 + 10 * (idx - 232), 8 + 10 * (idx - 232), 8 + 10 * (idx - 232))) ∧
    ansi256_to_rgb 16 = (0, 0, 0) ∧
    ansi256_to_rgb 231 = (255, 255, 255) ∧
    ansi256_to_rgb 232 = (8, 8, 8) ∧
    ansi256_to_rgb 255 = (238, 238, 238) := by
  refine ⟨?_, ?_, ?_, by decide, by decide, by decide, by decide⟩
  · intro h16
    simp [ansi256_to_rgb, h16]
  · intro h1 h2
    have hn16 : ¬ idx < 16 := by omega
    have e1 : (idx - 16) % 36 / 6 = (idx - 16) / 6 % 6 := by omega
    have e2 : (idx - 16) % 36 % 6 = (idx - 16) % 6 := by omega
    simp [ansi256_to_rgb, hn16, h2, e1, e2]
  · intro h232
    have hn16 : ¬ idx < 16 := by omega
    have hn231 : ¬ idx ≤ 231 := by omega
    simp [ansi256_to_rgb, hn16, hn231, Nat.mul_comm]

theorem ansi256_to_rgb_palette_witness :
    ansi256_to_rgb 100 =
      (CUBE_VALUES.getD ((100 - 16) / 36) 0,
       CUBE_VALUES.getD ((100 - 16) / 6 % 6) 0,
       CUBE_VALUES.getD ((100 - 16) % 6) 0) :=
  (ansi256_to_rgb_palette 100 (by decide)).2.1 (by decide) (by decide)

/-- C4: for a non-plain value under an enabled capability, the rewritten
inner text equals the segments of the input between the literal
occurrences of `ESC[0m`, joined by the reset followed by the
just-computed preamble (so the preamble is reinserted immediately after
every occurrence, and the surrounding text is unchanged); with no
occurrence, the text is used unmodified. -/
theorem escape_inner_inserts_preamble_after_each_reset (cs : ColoredString)
    (lvl : ColorLevel) (hp : cs.is_plain = false) (hl : lvl ≠ ColorLevel.none) :
    cs.escape_inner_reset_sequences lvl =
      joinSep (RESET ++ cs.compute_style lvl) (splitOnReset cs.input) ∧
    (occursIn RESET cs.input = false →
      cs.escape_inner_reset_sequences lvl = cs.input) := by
  have hesc :
      cs.escape_inner_reset_sequences lvl =
        if ¬ occursIn RESET cs.input then cs.input
        else insertAfterResets (cs.compute_style lvl) cs.input := by
    simp [ColoredString.escape_inner_reset_sequences, hasColors, hp, hl]
  constructor
  · by_cases ho : occursIn RESET cs.input = true
    · rw [hesc, if_neg (by simp [ho])]
      exact insertAfterResets_eq_joinSep _ cs.input.length _ le_rfl
    · have ho' : occursIn RESET cs.input = false := by
        simpa using ho
      rw [hesc, if_pos (by simp [ho']), splitOnReset_of_not_occurs _ ho']
      simp [joinSep]
  · intro ho
    rw [hesc, if_pos (by simp [ho])]

theorem escape_inner_inserts_preamble_after_each_reset_witness :
    ColoredString.escape_inner_reset_sequences
        ⟨"a\x1B[0mb".toList, some Color.red, Option.none, CLEAR⟩ ColorLevel.truecolor =
      joinSep
        (RESET ++
          ColoredString.compute_style
            ⟨"a\x1B[0mb".toList, some Color.red, Option.none, CLEAR⟩ ColorLevel.truecolor)
        (splitOnReset "a\x1B[0mb".toList) ∧
    (occursIn RESET "a\x1B[0mb".toList = false →
      ColoredString.escape_inner_reset_sequences
          ⟨"a\x1B[0mb".toList, some Color.red, Option.none, CLEAR⟩ ColorLevel.truecolor =
        "a\x1B[0mb".toList) :=
  escape_inner_inserts_preamble_after_each_reset _ _ (by decide) (by decide)

/-- C3: a non-plain value rendered under an enabled level is exactly
`ESC [ <params> m <rewritten text> ESC [0m`, where `<params>` is the
`;`-joined list of style codes, background code, foreground code, in
that order, only the present ones; concretely `"x"` with foreground Red
and style Bold under TrueColor renders as `"\x1B[1;31mx\x1B[0m"`. -/
theorem render_format_style_bg_fg (cs : ColoredString) (lvl : ColorLevel)
    (hp : cs.is_plain = false) (hl : lvl ≠ ColorLevel.none) :
    cs.render lvl =
      "\x1B[".toList ++ joinSep ";".toList (styleBgFgParts cs lvl) ++ "m".toList
        ++ cs.escape_inner_reset_sequences lvl ++ "\x1B[0m".toList ∧
    ColoredString.render ⟨"x".toList, some Color.red, Option.none, ⟨1⟩⟩
        ColorLevel.truecolor = "\x1B[1;31mx\x1B[0m".toList := by
  refine ⟨?_, by decide⟩
  have hren :
      cs.render lvl =
        cs.compute_style lvl ++ cs.escape_inner_reset_sequences lvl ++ RESET := by
    simp [ColoredString.render, hasColors, hp, hl]
  have hcomp :
      cs.compute_style lvl =
        "\x1B[".toList ++ joinSep ";".toList (styleBgFgParts cs lvl) ++ "m".toList := by
    by_cases hst : cs.style = CLEAR
    · rcases hbg : cs.bgcolor with _ | bg
      · rcases hfg : cs.fgcolor with _ | fg
        · exfalso
          have hpl : cs.is_plain = true := by
            simp [ColoredString.is_plain, hst, hbg, hfg]
          simp [hpl] at hp
        · simp [ColoredString.compute_style, styleBgFgParts, joinSep, hasColors,
            hp, hl, hst, hbg, hfg]
      · rcases hfg : cs.fgcolor with _ | fg <;>
          simp [ColoredString.compute_style, styleBgFgParts, joinSep, hasColors,
            hp, hl, hst, hbg, hfg, List.append_assoc]
    · rcases hbg : cs.bgcolor with _ | bg <;>
        rcases hfg : cs.fgcolor with _ | fg <;>
        simp [ColoredString.compute_style, styleBgFgParts, joinSep, hasColors,
          hp, hl, hst, hbg, hfg, List.append_assoc]
  rw [hren, hcomp]
  simp [RESET, List.append_assoc]

theorem render_format_style_bg_fg_witness :
    ColoredString.render ⟨"x".toList, some Color.red, Option.none, ⟨1⟩⟩
        ColorLevel.truecolor =
      "\x1B[".toList ++
        joinSep ";".toList
          (styleBgFgParts ⟨"x".toList, some Color.red, Option.none, ⟨1⟩⟩
            ColorLevel.truecolor) ++ "m".toList ++
        ColoredString.escape_inner_reset_sequences
          ⟨"x".toList, some Color.red, Option.none, ⟨1⟩⟩ ColorLevel.truecolor ++
        "\x1B[0m".toList :=
  (render_format_style_bg_fg _ _ (by decide) (by decide)).1

/-- C7: for `Ansi256`/`TrueColor` inputs (u8 components),
`fallback_to_ansi16` returns the color of the table entry minimizing the
squared Euclidean distance to the input's RGB expansion, ties resolved
to the first minimum in table order; for the 16 named colors (expansion
`none`) it returns the input unchanged. -/
theorem fallback16_nearest_first_min :
    (∀ (c : Color) (p : Nat × Nat × Nat), c.rgbExpand = some p →
      p.1 ≤ 255 → p.2.1 ≤ 255 → p.2.2 ≤ 255 →
      ∃ l₁ e l₂, ANSI_16_COLORS = l₁ ++ e :: l₂ ∧
        c.fallback_to_ansi16 = e.2.2.2 ∧
        (∀ x ∈ ANSI_16_COLORS, entryDist p e ≤ entryDist p x) ∧
        (∀ x ∈ l₁, entryDist p e < entryDist p x)) ∧
    (∀ c : Color, c.rgbExpand = Option.none → c.fallback_to_ansi16 = c) := by
  constructor
  · intro c p hexp h1 h2 h3
    obtain ⟨l₁, e, l₂, heq, hres, hpre, hall⟩ := fallback16_decomp c p hexp h1 h2 h3
    exact ⟨l₁, e, l₂, heq, hres, hall, hpre⟩
  · intro c hnone
    simp [Color.fallback_to_ansi16, hnone]

theorem fallback16_nearest_first_min_witness :
    (∃ l₁ e l₂, ANSI_16_COLORS = l₁ ++ e :: l₂ ∧
      Color.fallback_to_ansi16 (Color.ansi256 196) = e.2.2.2 ∧
      (∀ x ∈ ANSI_16_COLORS,
        entryDist (255, 0, 0) e ≤ entryDist (255, 0, 0) x) ∧
      (∀ x ∈ l₁, entryDist (255, 0, 0) e < entryDist (255, 0, 0) x)) ∧
    Color.fallback_to_ansi16 Color.red = Color.red :=
  ⟨fallback16_nearest_first_min.1 (Color.ansi256 196) (255, 0, 0) (by decide)
      (by decide) (by decide) (by decide),
   fallback16_nearest_first_min.2 Color.red rfl⟩

/-- C9: downgrading a `TrueColor` to the 16-color palette is idempotent. -/
theorem fallback16_idempotent_truecolor (r g b : Nat)
    (hr : r ≤ 255) (hg : g ≤ 255) (hb : b ≤ 255) :
    (Color.trueColor r g b).fallback_to_ansi16.fallback_to_ansi16 =
      (Color.trueColor r g b).fallback_to_ansi16 := by
  obtain ⟨l₁, e, l₂, heq, hres, hpre, hall⟩ :=
    fallback16_decomp (Color.trueColor r g b) (r, g, b) rfl hr hg hb
  rw [hres]
  have hmem : e ∈ ANSI_16_COLORS := by
    rw [heq]
    exact List.mem_append_right _ (List.mem_cons_self _ _)
  exact fallback16_fixed_on_table e hmem

theorem fallback16_idempotent_truecolor_witness :
    (Color.trueColor 10 200 30).fallback_to_ansi16.fallback_to_ansi16 =
      (Color.trueColor 10 200 30).fallback_to_ansi16 :=
  fallback16_idempotent_truecolor 10 200 30 (by decide) (by decide) (by decide)

/-- C2 (divergence of the code from the claim as stated): `"12+345"`
contains a character that is not a hex digit, yet `parse_hex` accepts it
(`u8::from_str_radix` accepts a leading `'+'` in each 2-digit group),
returning `TrueColor{18, 3, 69}`, and the fallible entry point returns a
value for it. -/
theorem parse_hex_plus_sign_counterexample :
    parse_hex "12+345".toList = some (some (Color.trueColor 18 3 69)) ∧
    stripHash "12+345".toList = "12+345".toList ∧
    ("12+345".toList.length = 6 ∧ ¬ "12+345".toList.all isHexDigitChar = true) ∧
    ColoredString.try_hexcolor ⟨[], Option.none, Option.none, CLEAR⟩
        "12+345".toList =
      some (some ⟨[], some (Color.trueColor 18 3 69), Option.none, CLEAR⟩) := by
  decide

/-- C2 (amended): `parse_hex` succeeds exactly on the `hexInputOk`
inputs — after the optional `#`, three hex digits or six characters in
`u8::from_str_radix`-accepted pairs. The fallible entry point is not
total: it panics (outer `none`) only on inputs whose stripped remainder
has UTF-8 byte length 3 or 6 but is not all-ASCII, where a byte slice
falls inside a multi-byte character (concretely on `"€"` and `"¡1"`);
it returns no value (`some none`) on exactly the remaining failures.
The non-fallible entry point `hexcolor` aborts exactly on the
non-accepted inputs, by the slicing panic or by its `unwrap`. -/
theorem parse_hex_succeeds_iff (s : List Char) :
    parseHexOk s = hexInputOk s ∧
    (parse_hex s = Option.none →
      (byteLen (stripHash s) = 3 ∨ byteLen (stripHash s) = 6) ∧
        ¬ (stripHash s).all charAscii = true) ∧
    (parse_hex s = some Option.none ↔
      hexInputOk s = false ∧ parse_hex s ≠ Option.none) ∧
    hexcolorPanics s = !hexInputOk s ∧
    parse_hex "€".toList = Option.none ∧
    parse_hex "¡1".toList = Option.none := by
  have main : parseHexOk s = hexInputOk s := by
    rcases hp : parse_hex_body (stripHash s) with _ | (_ | c)
    · have hfalse : hexOkCore (stripHash s) = false := by
        cases hk : hexOkCore (stripHash s)
        · rfl
        · obtain ⟨c, hc⟩ := accept_imp_parse_ok _ hk
          rw [hp] at hc
          exact absurd hc (by simp)
      simp [parseHexOk, parse_hex, hexInputOk, hp, hfalse]
    · have hfalse : hexOkCore (stripHash s) = false := by
        cases hk : hexOkCore (stripHash s)
        · rfl
        · obtain ⟨c, hc⟩ := accept_imp_parse_ok _ hk
          rw [hp] at hc
          exact absurd hc (by simp)
      simp [parseHexOk, parse_hex, hexInputOk, hp, hfalse]
    · have hacc := parse_ok_imp_accept _ c hp
      simp [parseHexOk, parse_hex, hexInputOk, hp, hacc]
  refine ⟨main, ?_, ?_, ?_, by decide, by decide⟩
  · intro h
    exact parse_panic_shape (stripHash s) h
  · constructor
    · intro h
      have h1 : parseHexOk s = false := by
        simp [parseHexOk, h]
      refine ⟨by rw [← main]; exact h1, ?_⟩
      rw [h]
      simp
    · rintro ⟨hok, hnn⟩
      have h1 : parseHexOk s = false := by rw [main]; exact hok
      rcases hp : parse_hex s with _ | (_ | c)
      · exact absurd hp hnn
      · rfl
      · simp [parseHexOk, hp] at h1
  · have hstep : hexcolorPanics s = !parseHexOk s := by
      rcases hp : parse_hex s with _ | (_ | c) <;>
        simp [hexcolorPanics, parseHexOk, hp]
    rw [hstep, main]
